import Mathlib

/-!
Shallow embedding of the Slack-Thread-Summarizer repository
(`src/llm_service.py` and `src/slack_bot_summarizer.py`) and proofs of the
spec claims about it.  Each definition mirrors one Python function or data
shape; external collaborators (Slack client, Anthropic / Azure SDK objects,
the Notion HTTP endpoint) are modelled as explicit parameters or outcome
values.  Python string operations are embedded character-by-character
(Python strings index by code point, which matches `List Char`), because
the claims are settled by evaluating them on concrete inputs.
-/

namespace SlackSummarizer

/-! ## Python string primitives -/

/-- Python truthiness of an optional string: `not x` is true exactly when
`x` is `None` or the empty string. -/
def truthy : Option String → Bool
  | none => false
  | some s => !s.isEmpty

/-- Python `str.lower()`, character by character (the provider names involved
are ASCII). -/
def py_lower (s : String) : String :=
  String.mk (s.data.map Char.toLower)

/-- The whitespace characters removed by Python `str.strip()`. -/
def py_is_space (c : Char) : Bool :=
  c = ' ' || c = '\t' || c = '\n' || c = '\r' || c = '\x0b' || c = '\x0c'

/-- Remove characters satisfying `p` from both ends of a character list
(Python `str.strip(chars)`). -/
def py_strip_chars (p : Char → Bool) (cs : List Char) : List Char :=
  ((cs.dropWhile p).reverse.dropWhile p).reverse

/-- Python `str.strip()` with no argument. -/
def py_strip (s : String) : String :=
  String.mk (py_strip_chars py_is_space s.data)

/-- Python `str.startswith(pre)`. -/
def py_startswith (s pre : String) : Bool :=
  pre.data.isPrefixOf s.data

/-- Python slicing `s[n:]`. -/
def py_drop (s : String) (n : Nat) : String :=
  String.mk (s.data.drop n)

/-- Python `pat in s` on character lists: whether `pat` occurs contiguously. -/
def contains_chars (pat : List Char) : List Char → Bool
  | [] => pat.isEmpty
  | c :: rest => pat.isPrefixOf (c :: rest) || contains_chars pat rest

/-- Helper for `py_split_nl`: accumulate the current segment (reversed) while
scanning for newline separators. -/
def split_nl_aux : List Char → List Char → List String
  | [], acc => [String.mk acc.reverse]
  | c :: rest, acc =>
    if c = '\n' then String.mk acc.reverse :: split_nl_aux rest []
    else split_nl_aux rest (c :: acc)

/-- Python `str.split("\n")` (the only separator used by the source). -/
def py_split_nl (s : String) : List String :=
  split_nl_aux s.data []

/-- Python `"\n\n".join(parts)` as used by `format_messages_for_llm`. -/
def join_blank_sep : List String → String
  | [] => ""
  | [x] => x
  | x :: xs => x ++ "\n\n" ++ join_blank_sep xs

/-- Helper for `py_replace`: replace every occurrence of the non-empty
pattern `p :: ps` by `rep`, scanning left to right without overlap
(Python `str.replace` semantics).  The fuel argument, initialized to the
length of the scanned list, only serves structural termination: every
recursive call strictly shrinks the list, so fuel never runs out. -/
def py_replace_go (p : Char) (ps rep : List Char) : Nat → List Char → List Char
  | 0, cs => cs
  | fuel + 1, cs =>
    match cs with
    | [] => []
    | c :: rest =>
      if (p :: ps).isPrefixOf (c :: rest) then
        rep ++ py_replace_go p ps rep fuel (rest.drop ps.length)
      else
        c :: py_replace_go p ps rep fuel rest

/-- Python `s.replace(pat, rep)`.  Every call site in the source uses a
non-empty pattern of the form `"<@" + user_id + ">"`. -/
def py_replace (s pat rep : String) : String :=
  match pat.data with
  | [] => s
  | p :: ps => String.mk (py_replace_go p ps rep.data s.data.length s.data)

/-! ## LLM service (`src/llm_service.py`) -/

/-- Model of the `anthropic.Anthropic(api_key=...)` client object. -/
structure ClaudeClient where
  api_key : String
deriving Repr, DecidableEq

/-- Model of the `AzureOpenAI(api_key=..., api_version=..., azure_endpoint=...)` client object. -/
structure AzureOpenAIClient where
  api_key : String
  api_version : String
  azure_endpoint : String
deriving Repr, DecidableEq

/-- Environment variables read in `LLMService.__init__`.
`none` models an unset variable; `some ""` models one set to the empty string.
`azure_openai_deployment` and `azure_openai_api_version` carry their
`os.environ.get` defaults already applied. -/
structure Env where
  anthropic_api_key : Option String
  azure_openai_api_key : Option String
  azure_openai_endpoint : Option String
  azure_openai_deployment : String
  azure_openai_api_version : String
deriving Repr, DecidableEq

/-- Mutable fields of an `LLMService` instance that the switch logic touches. -/
structure LLMState where
  provider : String
  claude_client : Option ClaudeClient
  azure_openai_client : Option AzureOpenAIClient
deriving Repr, DecidableEq

/-- The distinct `ValueError`s raised by `LLMService`, identified by which
check fired (the Python code distinguishes them only by message text). -/
inductive LLMError where
  | missingAnthropicKey
  | missingAzureConfig
  | unsupportedProvider
deriving Repr, DecidableEq

/-- Embeds `LLMService._initialize_client`: dispatch on `self.provider`,
check the required environment variables, and set the corresponding client
field, leaving the other client field untouched.  `Except.error` models the
`raise ValueError` paths, on which no field has been assigned yet. -/
def initialize_client (env : Env) (st : LLMState) : Except LLMError LLMState :=
  if st.provider = "claude" then
    if truthy env.anthropic_api_key = false then
      Except.error LLMError.missingAnthropicKey
    else
      Except.ok { st with claude_client := some ⟨env.anthropic_api_key.getD ""⟩ }
  else if st.provider = "azure_openai" then
    if truthy env.azure_openai_api_key = false || truthy env.azure_openai_endpoint = false then
      Except.error LLMError.missingAzureConfig
    else
      let client : AzureOpenAIClient :=
        ⟨env.azure_openai_api_key.getD "", env.azure_openai_api_version,
          env.azure_openai_endpoint.getD ""⟩
      Except.ok { st with azure_openai_client := some client }
  else
    Except.error LLMError.unsupportedProvider

/-- Embeds `LLMService.switch_provider`.  Returns the state of the service
after the call together with either the returned provider string or the
raised error.  Mirrors the source exactly: the unsupported-name check comes
first; when the requested provider differs from the active one the
`provider` field is assigned **before** `_initialize_client()` runs, so an
initialization error leaves that assignment in place. -/
def switch_provider (env : Env) (st : LLMState) (provider : String) :
    LLMState × Except LLMError String :=
  if ¬(py_lower provider = "claude" ∨ py_lower provider = "azure_openai") then
    (st, Except.error LLMError.unsupportedProvider)
  else if py_lower provider ≠ st.provider then
    let st1 := { st with provider := py_lower provider }
    match initialize_client env st1 with
    | Except.ok st2 => (st2, Except.ok st2.provider)
    | Except.error e => (st1, Except.error e)
  else
    (st, Except.ok st.provider)

/-- Whether `generate_summary` / `extract_keywords` would find a non-`None`
client to call: both dispatch with `if self.provider == "claude"` using
`self.claude_client`, and use `self.azure_openai_client` otherwise. -/
def active_client_usable (st : LLMState) : Bool :=
  if st.provider = "claude" then st.claude_client.isSome
  else st.azure_openai_client.isSome

/-- Whether the environment carries usable credentials for provider `p`,
matching the checks inside `_initialize_client`. -/
def creds_ok (env : Env) (p : String) : Bool :=
  if p = "claude" then truthy env.anthropic_api_key
  else truthy env.azure_openai_api_key && truthy env.azure_openai_endpoint

/-- The initialization error `_initialize_client` raises for a supported
provider `p` whose credentials are missing. -/
def missing_err (p : String) : LLMError :=
  if p = "claude" then LLMError.missingAnthropicKey else LLMError.missingAzureConfig

/-- Environment with Azure credentials present but no Anthropic key. -/
def env_no_claude : Env :=
  ⟨none, some "azkey", some "azendpoint", "gpt-4", "2023-12-01-preview"⟩

/-- Service state with `azure_openai` active and a usable Azure client. -/
def st_azure : LLMState :=
  ⟨"azure_openai", none, some ⟨"azkey", "2023-12-01-preview", "azendpoint"⟩⟩

/-! ## Slack messages and user lookup (`src/slack_bot_summarizer.py`) -/

/-- The fields of one raw Slack thread message that the pipeline reads:
`msg.get("user")`, `msg.get("bot_id")`, `msg.get("text", "")`, `msg.get("ts", ...)`
(the timestamp is read by the source but never used in the output). -/
structure RawMessage where
  user : Option String
  bot_id : Option String
  text : String
  ts : String
deriving Repr, DecidableEq

/-- The fields of a Slack `users_info` result the pipeline reads:
`user["real_name"]` (may be absent) and `user["profile"]["email"]`
(modelled as the string `profile.get("email", "")` would produce, absent
meaning the key is missing so the default `""` is used). -/
structure UserInfo where
  real_name : Option String
  email : Option String
deriving Repr, DecidableEq

/-- The identity-resolution capability: `client.users_info(user=uid)`.
`none` models the call raising an exception. -/
def UsersInfo : Type := String → Option UserInfo

/-- Characters matched by the `[A-Z0-9]` class of the mention regex. -/
def isIdChar (c : Char) : Bool :=
  ('A' ≤ c && c ≤ 'Z') || ('0' ≤ c && c ≤ '9')

/-- One attempt of the regex engine for `<@([A-Z0-9]+)>` at the current
position: if the text starts with `<@`, a non-empty greedy run of id
characters, and `>`, return the captured id run and the remainder after the
match; otherwise report no match at this position. -/
def tryMention (cs : List Char) : Option (List Char × List Char) :=
  match cs with
  | c1 :: c2 :: rest =>
    if c1 = '<' ∧ c2 = '@' then
      match rest.drop (rest.takeWhile isIdChar).length with
      | c3 :: rest2 =>
        if c3 = '>' ∧ (rest.takeWhile isIdChar).isEmpty = false then
          some (rest.takeWhile isIdChar, rest2)
        else none
      | [] => none
    else none
  | _ => none

/-- Scanner for `re.findall(r'<@([A-Z0-9]+)>', text)`: scan left to right,
attempting a match at each position; on a match record the captured id and
continue after the match (non-overlapping), otherwise advance one character.
The fuel argument, initialized to the length of the scanned list, only
serves structural termination: every recursive call strictly shrinks the
list. -/
def findMentionsGo : Nat → List Char → List String
  | 0, _ => []
  | _ + 1, [] => []
  | fuel + 1, c :: rest =>
    match tryMention (c :: rest) with
    | some (run, rest2) => String.mk run :: findMentionsGo fuel rest2
    | none => findMentionsGo fuel rest

/-- Embeds `re.findall(r'<@([A-Z0-9]+)>', text)` on a character list. -/
def findMentionsAux (cs : List Char) : List String :=
  findMentionsGo cs.length cs

/-- Scanner for `re.sub(r'<@[A-Z0-9]+>', '', text)`: same scan as
`findMentionsGo`, deleting each matched token and keeping everything else. -/
def removeMentionsGo : Nat → List Char → List Char
  | 0, cs => cs
  | _ + 1, [] => []
  | fuel + 1, c :: rest =>
    match tryMention (c :: rest) with
    | some (_, rest2) => removeMentionsGo fuel rest2
    | none => c :: removeMentionsGo fuel rest

/-- Embeds `re.sub(r'<@[A-Z0-9]+>', '', text)` on a character list. -/
def removeMentionsAux (cs : List Char) : List Char :=
  removeMentionsGo cs.length cs

/-- The character-list form of the mention token `<@uid>` for a given id. -/
def tokenOf (uid : String) : List Char := '<' :: '@' :: (uid.data ++ ['>'])

/-- Whether every `<` in the text opens a well-formed mention token (the
single-pass `re.sub` scan can splice a new token out of kept fragments only
when this fails, e.g. on `<@<@A>B>`). -/
def clean_mentions_go : Nat → List Char → Bool
  | 0, cs => cs.isEmpty
  | _ + 1, [] => true
  | fuel + 1, c :: rest =>
    match tryMention (c :: rest) with
    | some (_, rest2) => clean_mentions_go fuel rest2
    | none => if c = '<' then false else clean_mentions_go fuel rest

/-- `clean_mentions_go` at its canonical fuel. -/
def clean_mentions (cs : List Char) : Bool := clean_mentions_go cs.length cs

/-- The body of the `for user_id in mentions` loop of `process_mentions`:
call `users_info` for the id; on success replace every occurrence of the
token with `"@" + real_name`; on failure (exception, or missing `real_name`
key, both caught by the `except` clause) leave the text unchanged. -/
def mention_step (client : UsersInfo) (t : String) (uid : String) : String :=
  match client uid with
  | some info =>
    match info.real_name with
    | some name => py_replace t ("<@" ++ uid ++ ">") ("@" ++ name)
    | none => t
  | none => t

/-- Embeds `process_mentions(text, client)`: find all mention tokens, then
run the replacement loop over the found ids in order. -/
def process_mentions (client : UsersInfo) (text : String) : String :=
  (findMentionsAux text.data).foldl (mention_step client) text

/-- The `re.sub(r'<@[A-Z0-9]+>', '', text)` step of `format_messages_for_llm`
(commented in the source as removing the mention of the bot, but matching
every remaining raw mention token). -/
def remove_mention_tokens (text : String) : String :=
  String.mk (removeMentionsAux text.data)

/-- The full text transformation a kept message undergoes in
`format_messages_for_llm`: mention resolution, then raw-token removal, then
`strip()`. -/
def transform_text (client : UsersInfo) (text : String) : String :=
  py_strip (remove_mention_tokens (process_mentions client text))

/-- Lookup in the per-call `user_cache` dictionary (insertion order list of
key/value pairs). -/
def cacheFind : List (String × UserInfo) → String → Option UserInfo
  | [], _ => none
  | (k, v) :: rest, uid => if k = uid then some v else cacheFind rest uid

/-- Loop state of `format_messages_for_llm`: the `user_cache` dict, the
`formatted_messages` list, plus instrumentation recording each `users_info`
invocation — `author_lookups` for the author-resolution call sites and
`mention_lookups` for the calls made inside `process_mentions` (one per
mention occurrence found, in order). -/
structure FormatState where
  user_cache : List (String × UserInfo)
  lines : List String
  author_lookups : List String
  mention_lookups : List String
deriving Repr, DecidableEq

/-- Tail of one `format_messages_for_llm` iteration after the author's
display name is known: record the mention lookups of `process_mentions`,
transform the text, and append `"username: text"` unless the transformed
text is empty. -/
def format_emit (client : UsersInfo) (st : FormatState) (username text0 : String) :
    FormatState :=
  let st2 := { st with mention_lookups := st.mention_lookups ++ findMentionsAux text0.data }
  let text := transform_text client text0
  if text = "" then st2
  else { st2 with lines := st2.lines ++ [username ++ ": " ++ text] }

/-- One iteration of the `for msg in messages` loop of
`format_messages_for_llm`: skip messages with a falsy `user` or a truthy
`bot_id`; resolve the author through the cache (successful lookups are
cached, failures fall back to `"User <id>"` and are not cached); then
process the text. -/
def format_step (client : UsersInfo) (st : FormatState) (msg : RawMessage) :
    FormatState :=
  if truthy msg.user = false || truthy msg.bot_id then st
  else
    match cacheFind st.user_cache (msg.user.getD "") with
    | some info =>
      format_emit client st (info.real_name.getD ("User " ++ msg.user.getD "")) msg.text
    | none =>
      match client (msg.user.getD "") with
      | some info =>
        format_emit client
          { st with user_cache := st.user_cache ++ [(msg.user.getD "", info)],
                    author_lookups := st.author_lookups ++ [msg.user.getD ""] }
          (info.real_name.getD ("User " ++ msg.user.getD "")) msg.text
      | none =>
        format_emit client
          { st with author_lookups := st.author_lookups ++ [msg.user.getD ""] }
          ("User " ++ msg.user.getD "") msg.text

/-- The initial loop state of `format_messages_for_llm` (and of the
instrumentation lists). -/
def initFormat : FormatState := ⟨[], [], [], []⟩

/-- The transcript lines produced by `format_messages_for_llm` (before the
final `"\n\n".join`). -/
def transcript_lines (client : UsersInfo) (messages : List RawMessage) : List String :=
  (messages.foldl (format_step client) initFormat).lines

/-- Embeds `format_messages_for_llm(client, messages)`. -/
def format_messages_for_llm (client : UsersInfo) (messages : List RawMessage) : String :=
  join_blank_sep (transcript_lines client messages)

/-- The display name the pipeline resolves a given user id to (used to state
the transcript characterization): cached and uncached resolution agree
because the lookup capability is a pure function. -/
def username_of (client : UsersInfo) (uid : String) : String :=
  match client uid with
  | some info => info.real_name.getD ("User " ++ uid)
  | none => "User " ++ uid

/-- Whether `format_messages_for_llm` emits a line for a message: it must
have a truthy author id, a falsy `bot_id`, and non-empty transformed text. -/
def transcript_keeps (client : UsersInfo) (m : RawMessage) : Bool :=
  truthy m.user && !truthy m.bot_id && !(transform_text client m.text == "")

/-- The transcript line an emitted message turns into. -/
def line_for (client : UsersInfo) (m : RawMessage) : String :=
  username_of client (m.user.getD "") ++ ": " ++ transform_text client m.text

/-! ## Participant extraction (`extract_participants_with_email`) -/

/-- One record of the participant list: `{"user_id": ..., "name": ..., "email": ...}`. -/
structure Participant where
  user_id : String
  name : String
  email : String
deriving Repr, DecidableEq

/-- Loop state of `extract_participants_with_email`: the growing participant
list, the per-call `user_cache`, the `processed_users` set (insertion-order
list), and instrumentation recording each `users_info` invocation. -/
structure ExtractState where
  participants : List Participant
  user_cache : List (String × UserInfo)
  processed_users : List String
  lookups : List String
deriving Repr, DecidableEq

/-- One iteration of the `for msg in messages` loop of
`extract_participants_with_email`: skip falsy-author / bot messages and
already-processed ids; otherwise mark the id processed, resolve it (cache,
then `users_info`, with the `{"real_name": "User <id>", "profile": {}}`
fallback on exception), and append the participant record. -/
def extract_step (client : UsersInfo) (st : ExtractState) (msg : RawMessage) :
    ExtractState :=
  if truthy msg.user = false || truthy msg.bot_id then st
  else
    if msg.user.getD "" ∈ st.processed_users then st
    else
      match cacheFind st.user_cache (msg.user.getD "") with
      | some info =>
        { st with processed_users := st.processed_users ++ [msg.user.getD ""],
                  participants := st.participants ++
                    [⟨msg.user.getD "", info.real_name.getD ("User " ++ msg.user.getD ""),
                      info.email.getD ""⟩] }
      | none =>
        match client (msg.user.getD "") with
        | some info =>
          { st with processed_users := st.processed_users ++ [msg.user.getD ""],
                    user_cache := st.user_cache ++ [(msg.user.getD "", info)],
                    lookups := st.lookups ++ [msg.user.getD ""],
                    participants := st.participants ++
                      [⟨msg.user.getD "", info.real_name.getD ("User " ++ msg.user.getD ""),
                        info.email.getD ""⟩] }
        | none =>
          { st with processed_users := st.processed_users ++ [msg.user.getD ""],
                    lookups := st.lookups ++ [msg.user.getD ""],
                    participants := st.participants ++
                      [⟨msg.user.getD "", "User " ++ msg.user.getD "", ""⟩] }

/-- The initial loop state of `extract_participants_with_email`. -/
def initExtract : ExtractState := ⟨[], [], [], []⟩

/-- Embeds `extract_participants_with_email(messages, client)`. -/
def extract_participants_with_email (client : UsersInfo) (messages : List RawMessage) :
    List Participant :=
  (messages.foldl (extract_step client) initExtract).participants

/-- The `users_info` invocations one `handle_app_mentions` event performs for
identity resolution, in pipeline order: the author and mention lookups of
`format_messages_for_llm`, then the lookups of
`extract_participants_with_email` (each helper builds its own fresh cache). -/
def request_lookups (client : UsersInfo) (messages : List RawMessage) : List String :=
  let f := messages.foldl (format_step client) initFormat
  let e := messages.foldl (extract_step client) initExtract
  f.author_lookups ++ f.mention_lookups ++ e.lookups

/-- The author ids of the authored, non-bot messages, in input order. -/
def thread_authors (messages : List RawMessage) : List String :=
  messages.filterMap (fun m =>
    if truthy m.user && !truthy m.bot_id then some (m.user.getD "") else none)

/-- First-appearance deduplication with an accumulator of already-seen ids
(specification function for the `processed_users` mechanism). -/
def first_occ_aux (seen : List String) : List String → List String
  | [] => []
  | a :: l => if a ∈ seen then first_occ_aux seen l else a :: first_occ_aux (seen ++ [a]) l

/-- First-appearance deduplication of a list of ids. -/
def first_occurrences (l : List String) : List String :=
  first_occ_aux [] l

/-! ## Document serializer (`convert_summary_to_notion_blocks`) -/

/-- A Notion content block as produced by `convert_summary_to_notion_blocks`:
only the block type (`heading_2`, `bulleted_list_item`, `paragraph`) and its
rich-text content vary; the constant JSON wrapper is abstracted away. -/
inductive NotionBlock where
  | heading (text : String)
  | bullet (text : String)
  | paragraph (text : String)
deriving Repr, DecidableEq

/-- Python `line.strip('# ')`: remove the characters `#` and space from both
ends of the string. -/
def strip_hash_space (s : String) : String :=
  String.mk (py_strip_chars (fun c => c = '#' || c = ' ') s.data)

/-- Flushing the accumulated `bullet_points` list: the source emits
`bullet_points[0]` and then each element of `bullet_points[1:]`, in order,
as `bulleted_list_item` blocks (and does nothing when the list is empty,
since every flush site is guarded by `if bullet_points:`). -/
def flush_bullets : List String → List NotionBlock
  | [] => []
  | p :: rest => NotionBlock.bullet p :: rest.map NotionBlock.bullet

/-- One iteration of the `for line in summary.split("\n")` loop of
`convert_summary_to_notion_blocks`, acting on the pair
(blocks emitted so far, accumulated `bullet_points`).  The `current_heading`
variable of the source is assigned but never read, so it is omitted. -/
def process_line (st : List NotionBlock × List String) (line : String) :
    List NotionBlock × List String :=
  if py_startswith line "##" then
    (st.1 ++ flush_bullets st.2 ++
      [NotionBlock.heading (py_strip (strip_hash_space line))], [])
  else if py_startswith (py_strip line) "- " then
    (st.1, st.2 ++ [py_strip (py_drop (py_strip line) 2)])
  else if py_strip line = "" then
    (st.1 ++ flush_bullets st.2 ++ [NotionBlock.paragraph ""], [])
  else if !(py_startswith (py_strip line) "-") && st.2.isEmpty then
    (st.1 ++ [NotionBlock.paragraph (py_strip line)], st.2)
  else
    st

/-- The loop of `convert_summary_to_notion_blocks` over an explicit list of
lines, including the final `if bullet_points:` flush after the loop. -/
def convert_lines (ls : List String) : List NotionBlock :=
  (ls.foldl process_line ([], [])).1 ++ flush_bullets (ls.foldl process_line ([], [])).2

/-- Embeds `convert_summary_to_notion_blocks`: split the summary on newlines
and run the line-classification loop. -/
def convert_summary_to_notion_blocks (summary : String) : List NotionBlock :=
  convert_lines (py_split_nl summary)

/-- A line the loop classifies as a bullet line: it does not begin with the
heading marker, and its stripped form begins with the bullet marker. -/
def is_bullet_line (l : String) : Bool :=
  !(py_startswith l "##") && py_startswith (py_strip l) "- "

/-- The bullet block a bullet-marker line turns into. -/
def bullet_of (l : String) : NotionBlock :=
  NotionBlock.bullet (py_strip (py_drop (py_strip l) 2))

/-! ## Notion persistence outcome (`save_summary_to_notion` / `handle_app_mentions`) -/

/-- Outcome of the `requests.post` call to the Notion create-page endpoint:
either the request raised (transport error) or a response arrived with a
status code and a body whose optional `"url"` field is modelled directly. -/
inductive PostOutcome where
  | transportError
  | response (status : Nat) (url : Option String)
deriving Repr, DecidableEq

/-- Embeds the result of `save_summary_to_notion`: `None` when the Notion
configuration is missing, when the request raised, or when the status is not
200; otherwise the parsed response body (whose `"url"` field may be absent). -/
def save_summary_to_notion (config_present : Bool) (post : PostOutcome) :
    Option (Option String) :=
  if config_present = false then none
  else
    match post with
    | PostOutcome.transportError => none
    | PostOutcome.response status url => if status = 200 then some url else none

/-- The `notion_url` variable of `handle_app_mentions` after the guarded save
block: the block runs only when the save flag and the Notion configuration
are present; inside it, an exception from `extract_keywords` (modelled by
`Except.error`) or from the save call is caught, leaving `notion_url = None`;
a returned body sets it only when the `"url"` key is present. -/
def notion_url_of (save_to_notion config_present : Bool) (keywords : Except Unit String)
    (post : PostOutcome) : Option String :=
  if save_to_notion && config_present then
    match keywords with
    | Except.error _ => none
    | Except.ok _ =>
      match save_summary_to_notion config_present post with
      | some (some url) => some url
      | some none => none
      | none => none
  else none

/-- The final text `handle_app_mentions` writes into the processing status
message via `chat_update`: the summary, the store-confirmation suffix only
when `notion_url` was set, and the provider footer. -/
def response_text_of (summary provider : String) (nurl : Option String) : String :=
  (match nurl with
   | some u => summary ++ "\n\n*<" ++ u ++ "|📝 Notionにも保存しました>*"
   | none => summary) ++ "\n\n_Generated by: " ++ provider ++ "_"

/-! ## Concrete inputs used by counterexamples and witnesses -/

/-- Lookup capability that resolves only `"U1"` (to display name `"Alice"`,
no email) and raises for every other id. -/
def client_u1 : UsersInfo := fun uid =>
  if uid = "U1" then some ⟨some "Alice", none⟩ else none

/-- Lookup capability that resolves `"U1"` to `"Alice"` with an email and
raises for every other id. -/
def client_u1_email : UsersInfo := fun uid =>
  if uid = "U1" then some ⟨some "Alice", some "alice@example.com"⟩ else none

/-- A single authored message whose text contains one unresolvable mention. -/
def msgs_unresolved : List RawMessage :=
  [⟨some "U1", none, "hi <@U999>", "1700000000.000100"⟩]

/-- A single authored plain-text message. -/
def msgs_hello : List RawMessage :=
  [⟨some "U1", none, "hello", "1700000000.000100"⟩]

/-! ## Theorems for the switch-provider claims (C1, C2, C10) -/

/-- C1 counterexample: starting from a service whose active `azure_openai`
backend is usable, in an environment without an Anthropic key, calling
`switch_provider("claude")` raises — but it leaves `provider = "claude"`
with `claude_client = None`, so the previously active backend is no longer
active and no usable backend is selected.  The switch is not transactional. -/
theorem C1_counterexample :
    active_client_usable st_azure = true ∧
    switch_provider env_no_claude st_azure "claude" =
      (⟨"claude", none, some ⟨"azkey", "2023-12-01-preview", "azendpoint"⟩⟩,
       Except.error LLMError.missingAnthropicKey) ∧
    (switch_provider env_no_claude st_azure "claude").1.provider ≠ st_azure.provider ∧
    active_client_usable (switch_provider env_no_claude st_azure "claude").1 = false :=
  ⟨rfl, rfl, by decide, by decide⟩

/-- C1 (amended): for a supported target backend different from the active
one, `switch_provider` fully succeeds (active provider becomes the target,
with a usable client) when the target's credentials are present; when they
are absent it raises, leaving both client fields unchanged but with the
`provider` field already set to the target — the previous backend does not
remain active. -/
theorem C1_switch_provider_amended (env : Env) (st : LLMState) (s : String)
    (hsup : py_lower s = "claude" ∨ py_lower s = "azure_openai")
    (hne : py_lower s ≠ st.provider) :
    (creds_ok env (py_lower s) = true →
      ∃ st2, switch_provider env st s = (st2, Except.ok (py_lower s)) ∧
        st2.provider = py_lower s ∧ active_client_usable st2 = true) ∧
    (creds_ok env (py_lower s) = false →
      switch_provider env st s =
        ({ st with provider := py_lower s }, Except.error (missing_err (py_lower s)))) := by
  have hsw : switch_provider env st s =
      match initialize_client env { st with provider := py_lower s } with
      | Except.ok st2 => (st2, Except.ok st2.provider)
      | Except.error e => ({ st with provider := py_lower s }, Except.error e) := by
    unfold switch_provider
    rw [if_neg (not_not_intro hsup), if_pos hne]
  rcases hsup with h | h <;> rw [h] at hsw ⊢
  · constructor
    · intro hcred
      simp [creds_ok] at hcred
      refine ⟨{ st with provider := "claude", claude_client := some ⟨env.anthropic_api_key.getD ""⟩ }, ?_, rfl, ?_⟩
      · rw [hsw]
        simp [initialize_client, hcred]
      · simp [active_client_usable]
    · intro hcred
      simp [creds_ok] at hcred
      rw [hsw]
      simp [initialize_client, hcred, missing_err]
  · constructor
    · intro hcred
      simp [creds_ok] at hcred
      have h12 := hcred
      refine ⟨{ st with provider := "azure_openai", azure_openai_client := some ⟨env.azure_openai_api_key.getD "", env.azure_openai_api_version, env.azure_openai_endpoint.getD ""⟩ }, ?_, rfl, ?_⟩
      · rw [hsw]
        simp [initialize_client, h12.1, h12.2]
      · simp [active_client_usable]
    · intro hcred
      simp [creds_ok] at hcred
      rw [hsw]
      cases hk : truthy env.azure_openai_api_key <;>
        cases he : truthy env.azure_openai_endpoint <;>
          simp_all [initialize_client, missing_err]

/-- C1 witness: the amended theorem applied at the concrete failing input of
the counterexample. -/
theorem C1_witness :
    switch_provider env_no_claude st_azure "claude" =
      ({ st_azure with provider := py_lower "claude" },
       Except.error (missing_err (py_lower "claude"))) :=
  (C1_switch_provider_amended env_no_claude st_azure "claude"
    (Or.inl (by decide)) (by decide)).2 (by decide)

/-- C2: switching to a name whose lowercase form is neither `"claude"` nor
`"azure_openai"` raises the unsupported-provider `ValueError` and leaves
the provider field and both client fields exactly as they were. -/
theorem C2_switch_unsupported (env : Env) (st : LLMState) (s : String)
    (h1 : py_lower s ≠ "claude") (h2 : py_lower s ≠ "azure_openai") :
    switch_provider env st s = (st, Except.error LLMError.unsupportedProvider) := by
  unfold switch_provider
  rw [if_pos]
  intro h
  rcases h with h | h
  · exact h1 h
  · exact h2 h

/-- C2 witness: switching to `"gemini"` fails and preserves the state. -/
theorem C2_witness :
    switch_provider env_no_claude st_azure "gemini" =
      (st_azure, Except.error LLMError.unsupportedProvider) :=
  C2_switch_unsupported env_no_claude st_azure "gemini" (by decide) (by decide)

/-- C10: switching to the already-active provider is a no-op: the state
(provider field and both client fields) is returned unchanged together with
the active provider, and no re-initialization happens. -/
theorem C10_switch_idempotent (env : Env) (st : LLMState) (s : String)
    (hsup : st.provider = "claude" ∨ st.provider = "azure_openai")
    (heq : py_lower s = st.provider) :
    switch_provider env st s = (st, Except.ok st.provider) := by
  unfold switch_provider
  rw [heq, if_neg (not_not_intro hsup), if_neg (not_not_intro rfl)]

/-- C10 witness: switching the azure-active service to `"AZURE_OPENAI"` is a
no-op returning the active provider. -/
theorem C10_witness :
    switch_provider env_no_claude st_azure "AZURE_OPENAI" =
      (st_azure, Except.ok st_azure.provider) :=
  C10_switch_idempotent env_no_claude st_azure "AZURE_OPENAI" (by decide) (by decide)

/-! ## Theorems for the document-serializer claims (C5, C6) -/

/-- Helper: `process_line` only ever appends to the emitted block list, and
what it appends and the new accumulator depend only on the old accumulator
and the line. -/
theorem process_line_frame (B : List NotionBlock) (bp : List String) (l : String) :
    process_line (B, bp) l =
      (B ++ (process_line ([], bp) l).1, (process_line ([], bp) l).2) := by
  cases h1 : py_startswith l "##" <;>
    cases h2 : py_startswith (py_strip l) "- " <;>
      by_cases h3 : py_strip l = "" <;>
        cases h4 : !(py_startswith (py_strip l) "-") && bp.isEmpty <;>
          simp [process_line, h1, h2, h3, h4, show py_startswith "" "- " = false by decide]

/-- Helper: the loop from any starting pair equals the starting block list
followed by what the loop produces from an empty block list. -/
theorem foldl_process_line_split (ls : List String) (p : List NotionBlock × List String) :
    ls.foldl process_line p =
      (p.1 ++ (ls.foldl process_line ([], p.2)).1, (ls.foldl process_line ([], p.2)).2) := by
  induction ls generalizing p with
  | nil => simp
  | cons l ls ih =>
    simp only [List.foldl_cons]
    have hf : process_line p l =
        (p.1 ++ (process_line ([], p.2) l).1, (process_line ([], p.2) l).2) := by
      conv_lhs => rw [← Prod.mk.eta (p := p)]
      exact process_line_frame p.1 p.2 l
    rw [hf, ih, ih (process_line ([], p.2) l)]
    simp [List.append_assoc]

/-- Helper: a run of bullet-marker lines only grows the accumulator, in
order, and emits nothing. -/
theorem foldl_process_line_bullets (bs : List String) (B : List NotionBlock)
    (bp : List String) (hb : ∀ l ∈ bs, is_bullet_line l = true) :
    bs.foldl process_line (B, bp) =
      (B, bp ++ bs.map (fun l => py_strip (py_drop (py_strip l) 2))) := by
  induction bs generalizing bp with
  | nil => simp
  | cons l ls ih =>
    have hl := hb l (by simp)
    simp only [is_bullet_line, Bool.and_eq_true, Bool.not_eq_true'] at hl
    simp only [List.foldl_cons]
    rw [show process_line (B, bp) l = (B, bp ++ [py_strip (py_drop (py_strip l) 2)]) by
      simp [process_line, hl.1, hl.2]]
    rw [ih _ (fun x hx => hb x (by simp [hx]))]
    simp

/-- Helper: `flush_bullets` maps each accumulated text to a bullet block. -/
theorem flush_bullets_eq_map (bp : List String) :
    flush_bullets bp = bp.map NotionBlock.bullet := by
  cases bp <;> simp [flush_bullets]

/-- C6: the scenario summary of the spec serializes to exactly the expected
block sequence, and in general a run of consecutive bullet-marker lines
yields exactly its bullet blocks in original order, flushed at a heading
line, at a blank line, or at end of input. -/
theorem C6_bullet_runs :
    convert_summary_to_notion_blocks "## 主題\n- a\n- b\n\n## 結論\n- c" =
      [NotionBlock.heading "主題", NotionBlock.bullet "a", NotionBlock.bullet "b",
       NotionBlock.paragraph "", NotionBlock.heading "結論", NotionBlock.bullet "c"] ∧
    (∀ (bs : List String) (hl : String) (rest : List String),
      (∀ l ∈ bs, is_bullet_line l = true) →
      (py_startswith hl "##" = true ∨ py_strip hl = "") →
      convert_lines (bs ++ hl :: rest) = bs.map bullet_of ++ convert_lines (hl :: rest)) ∧
    (∀ bs : List String, (∀ l ∈ bs, is_bullet_line l = true) →
      convert_lines bs = bs.map bullet_of) := by
  refine ⟨by decide, ?_, ?_⟩
  · intro bs hl rest hb hflush
    have hcont : (bs.map (fun l => py_strip (py_drop (py_strip l) 2))).map NotionBlock.bullet
        = bs.map bullet_of := by
      rw [List.map_map]
      rfl
    have hstep : process_line ([], bs.map (fun l => py_strip (py_drop (py_strip l) 2))) hl =
        (bs.map bullet_of ++ (process_line ([], ([] : List String)) hl).1,
         (process_line ([], ([] : List String)) hl).2) := by
      cases hs : py_startswith hl "##" with
      | true => simp [process_line, hs, flush_bullets_eq_map, hcont]
      | false =>
        have htr : py_strip hl = "" := by
          rcases hflush with h | h
          · rw [hs] at h
            cases h
          · exact h
        have hb2 : py_startswith (py_strip hl) "- " = false := by
          rw [htr]
          decide
        simp [process_line, hs, hb2, htr, flush_bullets_eq_map, hcont,
          show py_startswith "" "- " = false by decide]
    unfold convert_lines
    simp only [List.foldl_append, List.foldl_cons]
    rw [foldl_process_line_bullets bs [] [] hb]
    simp only [List.nil_append]
    rw [hstep]
    rw [foldl_process_line_split rest
      (bs.map bullet_of ++ (process_line ([], ([] : List String)) hl).1,
       (process_line ([], ([] : List String)) hl).2)]
    rw [foldl_process_line_split rest (process_line ([], ([] : List String)) hl)]
    simp [List.append_assoc]
  · intro bs hb
    unfold convert_lines
    rw [foldl_process_line_bullets bs [] [] hb]
    simp only [List.nil_append, flush_bullets_eq_map, List.map_map]
    rfl

/-- C6 witness: the general bullet-run decomposition applied to a concrete
bullet line flushed by a concrete heading line. -/
theorem C6_witness :
    convert_lines (["- x"] ++ "## Y" :: []) =
      [NotionBlock.bullet "x", NotionBlock.heading "Y"] :=
  (C6_bullet_runs.2.1 ["- x"] "## Y" [] (by decide) (Or.inl (by decide))).trans (by decide)

/-- C5 counterexample: the line `"-x"` is non-blank, is not a heading line,
and does not carry the bullet marker `"- "`, and no bullets are being
accumulated — yet the serializer emits no block for it (the claim predicts a
paragraph block), because of the extra `not line.strip().startswith("-")`
guard in the source. -/
theorem C5_counterexample :
    convert_summary_to_notion_blocks "-x" = [] ∧
    convert_summary_to_notion_blocks "-x" ≠ [NotionBlock.paragraph "-x"] := by
  constructor <;> decide

/-- C5 (amended): for a non-blank line that is neither a heading line nor a
bullet-marker line, the loop emits exactly one paragraph block holding the
trimmed line when no bullets are being accumulated **and** the trimmed line
does not start with `"-"`; otherwise (bullets accumulating, or a bare `"-"`
prefix) it emits nothing and leaves the state unchanged. -/
theorem C5_other_lines (B : List NotionBlock) (bp : List String) (l : String)
    (h1 : py_startswith l "##" = false)
    (h2 : py_startswith (py_strip l) "- " = false)
    (h3 : py_strip l ≠ "") :
    process_line (B, bp) l =
      if !(py_startswith (py_strip l) "-") && bp.isEmpty then
        (B ++ [NotionBlock.paragraph (py_strip l)], bp)
      else (B, bp) := by
  cases h4 : !(py_startswith (py_strip l) "-") && bp.isEmpty <;>
    simp [process_line, h1, h2, h3, h4]

/-- C5 witness: the amended rule applied to the plain line `"hello"` with no
accumulated bullets emits exactly one paragraph block. -/
theorem C5_witness :
    process_line ([], []) "hello" = ([NotionBlock.paragraph "hello"], []) := by
  have h := C5_other_lines [] [] "hello" (by decide) (by decide) (by decide)
  rw [h]
  decide

/-! ## Theorems for the transcript-builder claims (C7, C3) -/

/-- Helper: `format_emit` only appends to `lines` (by the emitted line when
the transformed text is non-empty) and never touches the cache or the
author-lookup log. -/
theorem format_emit_spec (client : UsersInfo) (st : FormatState)
    (username text0 : String) :
    (format_emit client st username text0).lines =
      st.lines ++ (if transform_text client text0 = "" then []
        else [username ++ ": " ++ transform_text client text0]) ∧
    (format_emit client st username text0).user_cache = st.user_cache ∧
    (format_emit client st username text0).author_lookups = st.author_lookups := by
  by_cases h : transform_text client text0 = "" <;> simp [format_emit, h]

/-- Helper: a successful `user_cache` lookup means the pair is stored. -/
theorem cacheFind_mem (c : List (String × UserInfo)) (uid : String) (info : UserInfo)
    (h : cacheFind c uid = some info) : (uid, info) ∈ c := by
  induction c with
  | nil => simp [cacheFind] at h
  | cons kv rest ih =>
    obtain ⟨k, v⟩ := kv
    simp only [cacheFind] at h
    by_cases hk : k = uid
    · rw [if_pos hk] at h
      obtain rfl := Option.some.inj h
      rw [← hk]
      exact List.mem_cons_self _ _
    · rw [if_neg hk] at h
      exact List.mem_cons_of_mem _ (ih h)

/-- Helper: one kept iteration of the transcript loop appends exactly the
expected line (when the transformed text is non-empty) and preserves the
cache/lookup consistency invariant. -/
theorem format_step_kept (client : UsersInfo) (st : FormatState) (m : RawMessage)
    (hu : truthy m.user = true) (hb : truthy m.bot_id = false)
    (hc : ∀ uid info, (uid, info) ∈ st.user_cache → client uid = some info) :
    (format_step client st m).lines =
      st.lines ++ (if transform_text client m.text = "" then []
        else [line_for client m]) ∧
    (∀ uid info, (uid, info) ∈ (format_step client st m).user_cache →
      client uid = some info) := by
  unfold format_step
  rw [if_neg (by simp [hu, hb])]
  cases hcf : cacheFind st.user_cache (m.user.getD "") with
  | some info =>
    dsimp only
    have hinfo : client (m.user.getD "") = some info :=
      hc _ _ (cacheFind_mem _ _ _ hcf)
    have huser : info.real_name.getD ("User " ++ m.user.getD "") =
        username_of client (m.user.getD "") := by
      rw [username_of, hinfo]
    rw [huser]
    refine ⟨?_, ?_⟩
    · rw [(format_emit_spec client st _ m.text).1]
      rfl
    · rw [(format_emit_spec client st _ m.text).2.1]
      exact hc
  | none =>
    dsimp only
    cases hcl : client (m.user.getD "") with
    | some info =>
      dsimp only
      have huser : info.real_name.getD ("User " ++ m.user.getD "") =
          username_of client (m.user.getD "") := by
        rw [username_of, hcl]
      rw [huser]
      refine ⟨?_, ?_⟩
      · rw [(format_emit_spec client _ _ m.text).1]
        rfl
      · rw [(format_emit_spec client _ _ m.text).2.1]
        intro uid info2 hmem
        simp only [] at hmem
        rcases List.mem_append.mp hmem with hmem | hmem
        · exact hc _ _ hmem
        · rw [List.mem_singleton, Prod.mk.injEq] at hmem
          obtain ⟨h1, h2⟩ := hmem
          rw [h1, h2]
          exact hcl
    | none =>
      dsimp only
      have huser : ("User " ++ m.user.getD "") =
          username_of client (m.user.getD "") := by
        rw [username_of, hcl]
      rw [huser]
      refine ⟨?_, ?_⟩
      · rw [(format_emit_spec client _ _ m.text).1]
        rfl
      · rw [(format_emit_spec client _ _ m.text).2.1]
        exact hc

/-- Helper: the transcript loop from any state whose cache agrees with the
lookup capability appends exactly one `line_for` line per kept message, in
input order. -/
theorem format_go (client : UsersInfo) (msgs : List RawMessage) :
    ∀ st : FormatState,
      (∀ uid info, (uid, info) ∈ st.user_cache → client uid = some info) →
      (msgs.foldl (format_step client) st).lines =
        st.lines ++ (msgs.filter (transcript_keeps client)).map (line_for client) := by
  induction msgs with
  | nil =>
    intro st _
    simp
  | cons m ms ih =>
    intro st hc
    simp only [List.foldl_cons, List.filter_cons]
    cases hu : truthy m.user with
    | false =>
      rw [show format_step client st m = st by simp [format_step, hu]]
      rw [show transcript_keeps client m = false by simp [transcript_keeps, hu]]
      simp only [Bool.false_eq_true, if_false]
      exact ih st hc
    | true =>
      cases hb : truthy m.bot_id with
      | true =>
        rw [show format_step client st m = st by simp [format_step, hb]]
        rw [show transcript_keeps client m = false by simp [transcript_keeps, hb]]
        simp only [Bool.false_eq_true, if_false]
        exact ih st hc
      | false =>
        obtain ⟨hlines, hcache⟩ := format_step_kept client st m hu hb hc
        rw [ih (format_step client st m) hcache, hlines]
        rw [show transcript_keeps client m = !(transform_text client m.text == "") by
          simp [transcript_keeps, hu, hb]]
        by_cases htx : transform_text client m.text = ""
        · simp [htx]
        · simp [htx]

/-- C7: the transcript lines are exactly the kept messages (truthy author id,
falsy bot flag, non-empty transformed text), in input order, each rendered as
`"DisplayName: text"`; in particular no line is produced for an authorless or
bot-flagged message, and emitted lines keep the input order of the kept
messages. -/
theorem C7_transcript_order (client : UsersInfo) (messages : List RawMessage) :
    transcript_lines client messages =
      (messages.filter (transcript_keeps client)).map (line_for client) := by
  have h := format_go client messages initFormat (by
    intro uid info hmem
    simp [initFormat] at hmem)
  simpa [transcript_lines, initFormat] using h

/-! ## Theorems for the participant-extractor claim (C8) -/

/-- Helper: skipping an already-seen head in first-appearance dedup. -/
theorem first_occ_aux_cons_mem (seen : List String) (a : String) (l : List String)
    (h : a ∈ seen) : first_occ_aux seen (a :: l) = first_occ_aux seen l := by
  simp [first_occ_aux, h]

/-- Helper: keeping a fresh head in first-appearance dedup. -/
theorem first_occ_aux_cons_new (seen : List String) (a : String) (l : List String)
    (h : a ∉ seen) : first_occ_aux seen (a :: l) = a :: first_occ_aux (seen ++ [a]) l := by
  simp [first_occ_aux, h]

/-- Helper: one kept, not-yet-processed iteration of the extractor appends
the id to `processed_users` and appends one participant record carrying it. -/
theorem extract_step_kept (client : UsersInfo) (st : ExtractState) (m : RawMessage)
    (hu : truthy m.user = true) (hb : truthy m.bot_id = false)
    (hp : m.user.getD "" ∉ st.processed_users) :
    (extract_step client st m).processed_users = st.processed_users ++ [m.user.getD ""] ∧
    ∃ nm em, (extract_step client st m).participants =
      st.participants ++ [⟨m.user.getD "", nm, em⟩] := by
  unfold extract_step
  rw [if_neg (by simp [hu, hb]), if_neg hp]
  cases hcf : cacheFind st.user_cache (m.user.getD "") with
  | some info => exact ⟨rfl, _, _, rfl⟩
  | none =>
    dsimp only
    cases hcl : client (m.user.getD "") with
    | some info => exact ⟨rfl, _, _, rfl⟩
    | none => exact ⟨rfl, _, _, rfl⟩

/-- Helper: the participant ids produced by the extractor loop from any state
are the state's ids followed by the first-appearance dedup of the incoming
author ids relative to the already-processed set. -/
theorem extract_go (client : UsersInfo) (msgs : List RawMessage) :
    ∀ st : ExtractState,
      (msgs.foldl (extract_step client) st).participants.map Participant.user_id =
        st.participants.map Participant.user_id ++
          first_occ_aux st.processed_users (thread_authors msgs) := by
  induction msgs with
  | nil =>
    intro st
    simp [thread_authors, first_occ_aux]
  | cons m ms ih =>
    intro st
    simp only [List.foldl_cons]
    cases hu : truthy m.user with
    | false =>
      rw [show extract_step client st m = st by simp [extract_step, hu]]
      rw [show thread_authors (m :: ms) = thread_authors ms by simp [thread_authors, hu]]
      exact ih st
    | true =>
      cases hb : truthy m.bot_id with
      | true =>
        rw [show extract_step client st m = st by simp [extract_step, hb]]
        rw [show thread_authors (m :: ms) = thread_authors ms by simp [thread_authors, hb]]
        exact ih st
      | false =>
        rw [show thread_authors (m :: ms) = m.user.getD "" :: thread_authors ms by
          simp [thread_authors, hu, hb]]
        by_cases hp : m.user.getD "" ∈ st.processed_users
        · rw [show extract_step client st m = st by
            unfold extract_step
            rw [if_neg (by simp [hu, hb]), if_pos hp]]
          rw [ih st, first_occ_aux_cons_mem _ _ _ hp]
        · obtain ⟨hproc, nm, em, hparts⟩ := extract_step_kept client st m hu hb hp
          rw [ih (extract_step client st m), hparts, hproc,
            first_occ_aux_cons_new _ _ _ hp]
          simp

/-- Helper: first-appearance dedup yields ids without duplicates, none of
which were already seen. -/
theorem first_occ_aux_nodup (l : List String) :
    ∀ seen : List String,
      (first_occ_aux seen l).Nodup ∧ ∀ a ∈ first_occ_aux seen l, a ∉ seen := by
  induction l with
  | nil =>
    intro seen
    simp [first_occ_aux]
  | cons a l ih =>
    intro seen
    by_cases h : a ∈ seen
    · rw [first_occ_aux_cons_mem _ _ _ h]
      exact ih seen
    · rw [first_occ_aux_cons_new _ _ _ h]
      refine ⟨List.nodup_cons.mpr ⟨?_, (ih (seen ++ [a])).1⟩, ?_⟩
      · intro hmem
        have := (ih (seen ++ [a])).2 a hmem
        simp at this
      · intro x hx
        rcases List.mem_cons.mp hx with rfl | hx2
        · exact h
        · intro hxseen
          exact (ih (seen ++ [a])).2 x hx2 (List.mem_append_left _ hxseen)

/-- C8: the participant records carry exactly the first-appearance dedup of
the author ids of the authored, non-bot messages, in first-appearance order,
and no two records share an id. -/
theorem C8_participants_unique (client : UsersInfo) (messages : List RawMessage) :
    (extract_participants_with_email client messages).map Participant.user_id =
      first_occurrences (thread_authors messages) ∧
    ((extract_participants_with_email client messages).map Participant.user_id).Nodup := by
  have h := extract_go client messages initExtract
  have h2 : (extract_participants_with_email client messages).map Participant.user_id =
      first_occurrences (thread_authors messages) := by
    simpa [extract_participants_with_email, initExtract, first_occurrences] using h
  refine ⟨h2, ?_⟩
  rw [h2]
  exact (first_occ_aux_nodup (thread_authors messages) []).1

/-! ## Theorems for the mention-resolution claim (C3) -/

/-- C3 counterexample: with a lookup capability that fails on `"U999"`, the
resolution step leaves the token `<@U999>` unchanged — but the transcript
line for the message `"hi <@U999>"` is `"Alice: hi"`: the unresolved token
has been removed from the output text by the subsequent
`re.sub(r'<@[A-Z0-9]+>', '', text)` step. -/
theorem C3_counterexample :
    process_mentions client_u1 "hi <@U999>" = "hi <@U999>" ∧
    format_messages_for_llm client_u1 msgs_unresolved = "Alice: hi" ∧
    contains_chars "<@U999>".data (format_messages_for_llm client_u1 msgs_unresolved).data
      = false :=
  ⟨by decide, by decide, by decide⟩

/-- Helper: a contiguous occurrence survives prepending any characters. -/
theorem contains_chars_append_right (pat ys xs : List Char)
    (h : contains_chars pat ys = true) : contains_chars pat (xs ++ ys) = true := by
  induction xs with
  | nil => simpa using h
  | cons x xs ih => simp [contains_chars, ih]

/-- Helper: a prefix occurrence is an occurrence. -/
theorem contains_chars_of_isPrefixOf (pat xs : List Char) (h : pat.isPrefixOf xs = true) :
    contains_chars pat xs = true := by
  cases xs with
  | nil =>
    cases pat with
    | nil => simp [contains_chars, List.isEmpty]
    | cons p ps => simp [List.isPrefixOf] at h
  | cons x xs => simp [contains_chars, h]

/-- Helper: a mention token starts with `<`, so an occurrence inside
`m ++ s` with no `<` in `m` lies inside `s`. -/
theorem contains_token_skip (uid : String) (m s : List Char)
    (hm : ∀ c ∈ m, c ≠ '<')
    (h : contains_chars (tokenOf uid) (m ++ s) = true) :
    contains_chars (tokenOf uid) s = true := by
  induction m with
  | nil => simpa using h
  | cons c m ih =>
    simp only [List.cons_append, contains_chars, Bool.or_eq_true] at h
    rcases h with h | h
    · exfalso
      simp [tokenOf, List.isPrefixOf, Bool.and_eq_true] at h
      exact hm c (by simp) h.1.symm
    · exact ih (fun x hx => hm x (by simp [hx])) h

/-- Helper: two id runs closed by `>` that are prefixes of the same text are
equal, because `>` is not an id character. -/
theorem id_run_prefix_unique : ∀ (xs u v : List Char),
    (∀ c ∈ u, isIdChar c = true) → (∀ c ∈ v, isIdChar c = true) →
    (u ++ ['>']).isPrefixOf xs = true → (v ++ ['>']).isPrefixOf xs = true → u = v := by
  intro xs
  induction xs with
  | nil =>
    intro u v _ _ h1 _
    cases u <;> simp [List.isPrefixOf] at h1
  | cons x xs ih =>
    intro u v hu hv h1 h2
    cases u with
    | nil =>
      cases v with
      | nil => rfl
      | cons c v2 =>
        simp only [List.nil_append, List.cons_append, List.isPrefixOf, Bool.and_eq_true,
          beq_iff_eq] at h1 h2
        exfalso
        have hc := hv c (by simp)
        rw [h2.1, ← h1.1] at hc
        exact absurd hc (by decide)
    | cons a u2 =>
      cases v with
      | nil =>
        simp only [List.nil_append, List.cons_append, List.isPrefixOf, Bool.and_eq_true,
          beq_iff_eq] at h1 h2
        exfalso
        have hc := hu a (by simp)
        rw [h1.1, ← h2.1] at hc
        exact absurd hc (by decide)
      | cons c v2 =>
        simp only [List.cons_append, List.isPrefixOf, Bool.and_eq_true, beq_iff_eq] at h1 h2
        have := ih u2 v2 (fun y hy => hu y (by simp [hy])) (fun y hy => hv y (by simp [hy]))
          h1.2 h2.2
        rw [this, h1.1, h2.1]

/-- Helper: two mention tokens that are prefixes of the same text carry the
same id — distinct tokens can never overlap. -/
theorem token_prefix_unique (u w : String) (xs : List Char)
    (hu : ∀ c ∈ u.data, isIdChar c = true) (hw : ∀ c ∈ w.data, isIdChar c = true)
    (h1 : (tokenOf u).isPrefixOf xs = true) (h2 : (tokenOf w).isPrefixOf xs = true) :
    u = w := by
  cases xs with
  | nil => simp [tokenOf, List.isPrefixOf] at h1
  | cons x xs2 =>
    cases xs2 with
    | nil => simp [tokenOf, List.isPrefixOf] at h1
    | cons y xs3 =>
      simp only [tokenOf, List.isPrefixOf, Bool.and_eq_true, beq_iff_eq] at h1 h2
      exact String.ext (id_run_prefix_unique xs3 u.data w.data hu hw h1.2.2 h2.2.2)

/-- Helper: the replacement scan (pattern headed by `<`) keeps any prefix
that contains no `<`. -/
theorem replace_go_isPrefixOf (ps rep : List Char) :
    ∀ (fuel : Nat) (cs t : List Char), (∀ c ∈ t, c ≠ '<') → t.isPrefixOf cs = true →
      t.isPrefixOf (py_replace_go '<' ps rep fuel cs) = true := by
  intro fuel
  induction fuel with
  | zero =>
    intro cs t _ h
    simpa [py_replace_go] using h
  | succ fuel ih =>
    intro cs t ht h
    cases cs with
    | nil =>
      cases t with
      | nil => simp [py_replace_go, List.isPrefixOf]
      | cons a t2 => simp [List.isPrefixOf] at h
    | cons c rest =>
      cases t with
      | nil => simp [List.isPrefixOf]
      | cons a t2 =>
        simp only [List.isPrefixOf, Bool.and_eq_true, beq_iff_eq] at h
        have hclt : c ≠ '<' := h.1 ▸ ht a (by simp)
        have hm : ¬(('<' :: ps).isPrefixOf (c :: rest) = true) := by
          simp only [List.isPrefixOf, Bool.and_eq_true, beq_iff_eq]
          intro hcontra
          exact hclt hcontra.1.symm
        rw [py_replace_go]
        simp only [if_neg hm]
        simp only [List.isPrefixOf, Bool.and_eq_true, beq_iff_eq]
        exact ⟨h.1, ih rest t2 (fun x hx => ht x (by simp [hx])) h.2⟩

/-- Helper: replacing every occurrence of the token of `w` preserves any
occurrence of the token of a different id `u`: distinct token occurrences
are disjoint, so the replaced spans never touch the preserved one. -/
theorem replace_go_contains (u w : String) (rep : List Char)
    (hu : ∀ c ∈ u.data, isIdChar c = true) (hw : ∀ c ∈ w.data, isIdChar c = true)
    (hne : u ≠ w) :
    ∀ (fuel : Nat) (cs : List Char), cs.length ≤ fuel →
      contains_chars (tokenOf u) cs = true →
      contains_chars (tokenOf u)
        (py_replace_go '<' ('@' :: (w.data ++ ['>'])) rep fuel cs) = true := by
  intro fuel
  induction fuel with
  | zero =>
    intro cs _ h
    simpa [py_replace_go] using h
  | succ fuel ih =>
    intro cs hlen h
    cases cs with
    | nil => simpa [py_replace_go] using h
    | cons c rest =>
      by_cases hm : ('<' :: ('@' :: (w.data ++ ['>']))).isPrefixOf (c :: rest) = true
      · rw [py_replace_go]
        simp only [if_pos hm]
        obtain ⟨s, hs⟩ := List.isPrefixOf_iff_prefix.mp hm
        have hdrop : rest.drop ('@' :: (w.data ++ ['>'])).length = s := by
          have hd := congrArg (List.drop (('<' :: ('@' :: (w.data ++ ['>']))).length)) hs
          rw [List.drop_left] at hd
          simpa using hd.symm
        rw [hdrop]
        rw [← hs] at h
        have hskip : contains_chars (tokenOf u) s = true := by
          have hpre : ('<' :: ('@' :: (w.data ++ ['>']))).isPrefixOf
              (('<' :: ('@' :: (w.data ++ ['>']))) ++ s) = true :=
            List.isPrefixOf_iff_prefix.mpr (List.prefix_append _ _)
          simp only [List.cons_append, contains_chars, Bool.or_eq_true] at h
          rcases h with h | h | h
          · exact absurd (token_prefix_unique u w _ hu hw h
              (by simpa only [List.cons_append] using hpre)) hne
          · exfalso
            simp [tokenOf, List.isPrefixOf] at h
          · refine contains_token_skip u (w.data ++ ['>']) s ?_ h
            intro x hx
            simp at hx
            rcases hx with hx | rfl
            · intro hx2
              have hxi := hw x hx
              rw [hx2] at hxi
              exact absurd hxi (by decide)
            · decide
        have hlen2 : s.length ≤ fuel := by
          have hls := congrArg List.length hs
          simp at hls
          simp at hlen
          omega
        exact contains_chars_append_right _ _ rep (ih s hlen2 hskip)
      · rw [py_replace_go]
        simp only [if_neg hm]
        simp only [contains_chars, Bool.or_eq_true] at h
        rcases h with h | h
        · apply contains_chars_of_isPrefixOf
          simp only [tokenOf, List.isPrefixOf, Bool.and_eq_true, beq_iff_eq] at h ⊢
          refine ⟨h.1, ?_⟩
          refine replace_go_isPrefixOf _ rep fuel rest ('@' :: (u.data ++ ['>'])) ?_ h.2
          intro x hx
          simp at hx
          rcases hx with rfl | hx | rfl
          · decide
          · intro hx2
            have hxi := hu x hx
            rw [hx2] at hxi
            exact absurd hxi (by decide)
          · decide
        · simp only [contains_chars, Bool.or_eq_true]
          refine Or.inr (ih rest ?_ h)
          simp at hlen
          omega

/-- Helper: inverting a successful match attempt of the mention regex. -/
theorem tryMention_some_spec (cs run rest2 : List Char)
    (h : tryMention cs = some (run, rest2)) :
    ∃ rest, cs = '<' :: '@' :: rest ∧ run = rest.takeWhile isIdChar ∧
      run.isEmpty = false ∧ rest.drop run.length = '>' :: rest2 := by
  unfold tryMention at h
  split at h
  · split at h
    · split at h
      · split at h
        · rename_i a1 a2 rest hcond hx c3 rest2x heq hcond2
          rw [Option.some.injEq, Prod.mk.injEq] at h
          refine ⟨rest, ?_, h.1.symm, ?_, ?_⟩
          · rw [hcond.1, hcond.2]
          · rw [← h.1]
            exact hcond2.2
          · rw [← h.1, ← h.2, heq, hcond2.1]
        · exact absurd h (by simp)
      · exact absurd h (by simp)
    · exact absurd h (by simp)
  · exact absurd h (by simp)

/-- Helper: a successful match attempt consumes at least three characters. -/
theorem tryMention_some_length (cs run rest2 : List Char)
    (h : tryMention cs = some (run, rest2)) : rest2.length + 3 ≤ cs.length := by
  obtain ⟨rest, hcs, _, _, hdrop⟩ := tryMention_some_spec cs run rest2 h
  have hlen := congrArg List.length hdrop
  simp only [List.length_drop, List.length_cons] at hlen
  rw [hcs]
  simp only [List.length_cons]
  omega

/-- Helper: a captured id run consists of id characters. -/
theorem tryMention_some_idchars (cs run rest2 : List Char)
    (h : tryMention cs = some (run, rest2)) : ∀ c ∈ run, isIdChar c = true := by
  obtain ⟨rest, _, hrun, _, _⟩ := tryMention_some_spec cs run rest2 h
  intro c hc
  rw [hrun] at hc
  exact List.mem_takeWhile_imp hc

/-- Helper: every id found by the mention scanner consists of id characters. -/
theorem findMentionsGo_idchars : ∀ (fuel : Nat) (cs : List Char) (w : String),
    w ∈ findMentionsGo fuel cs → ∀ c ∈ w.data, isIdChar c = true := by
  intro fuel
  induction fuel with
  | zero =>
    intro cs w hw
    simp [findMentionsGo] at hw
  | succ fuel ih =>
    intro cs w hw
    cases cs with
    | nil => simp [findMentionsGo] at hw
    | cons c rest =>
      rw [findMentionsGo] at hw
      cases htm : tryMention (c :: rest) with
      | some pr =>
        obtain ⟨run, rest2⟩ := pr
        rw [htm] at hw
        dsimp only at hw
        rcases List.mem_cons.mp hw with rfl | hw2
        · intro c hc
          exact tryMention_some_idchars _ _ _ htm c hc
        · exact ih _ _ hw2
      | none =>
        rw [htm] at hw
        dsimp only at hw
        exact ih _ _ hw

/-- Helper: when every `<` of the text opens a well-formed mention token,
the stripping scan deletes them all, so its output contains no `<` at all. -/
theorem remove_go_no_lt : ∀ (fuelR fuelC : Nat) (cs : List Char),
    cs.length ≤ fuelR → cs.length ≤ fuelC → clean_mentions_go fuelC cs = true →
    '<' ∉ removeMentionsGo fuelR cs := by
  intro fuelR
  induction fuelR with
  | zero =>
    intro fuelC cs hR _ _
    cases cs with
    | nil => simp [removeMentionsGo]
    | cons c rest => simp at hR
  | succ fuelR ih =>
    intro fuelC cs hR hC hclean
    cases fuelC with
    | zero =>
      cases cs with
      | nil => simp [removeMentionsGo]
      | cons c rest => simp at hC
    | succ fuelC =>
      cases cs with
      | nil => simp [removeMentionsGo]
      | cons c rest =>
        rw [clean_mentions_go] at hclean
        rw [removeMentionsGo]
        cases htm : tryMention (c :: rest) with
        | some pr =>
          obtain ⟨run, rest2⟩ := pr
          rw [htm] at hclean
          dsimp only at hclean ⊢
          have hlen := tryMention_some_length _ _ _ htm
          simp only [List.length_cons] at hlen hR hC
          exact ih fuelC rest2 (by omega) (by omega) hclean
        | none =>
          rw [htm] at hclean
          dsimp only at hclean ⊢
          by_cases hc : c = '<'
          · rw [if_pos hc] at hclean
            cases hclean
          · rw [if_neg hc] at hclean
            intro hmem
            simp only [List.length_cons] at hR hC
            rcases List.mem_cons.mp hmem with h1 | h1
            · exact hc h1.symm
            · exact ih fuelC rest (by omega) (by omega) hclean h1

/-- Helper: a text containing an occurrence of a pattern contains the
pattern's first character. -/
theorem contains_head_mem (d : Char) (pat2 xs : List Char)
    (h : contains_chars (d :: pat2) xs = true) : d ∈ xs := by
  induction xs with
  | nil => simp [contains_chars, List.isEmpty] at h
  | cons c rest ih =>
    rw [contains_chars, Bool.or_eq_true] at h
    rcases h with h | h
    · simp only [List.isPrefixOf, Bool.and_eq_true, beq_iff_eq] at h
      rw [h.1]
      exact List.mem_cons_self _ _
    · exact List.mem_cons_of_mem _ (ih h)

/-- Helper: stripping characters from both ends keeps only characters of the
original text. -/
theorem py_strip_chars_mem (p : Char → Bool) (cs : List Char) (c : Char)
    (h : c ∈ py_strip_chars p cs) : c ∈ cs := by
  unfold py_strip_chars at h
  rw [List.mem_reverse] at h
  exact (List.dropWhile_sublist p).mem (List.mem_reverse.mp ((List.dropWhile_sublist p).mem h))

/-- Helper: one `str.replace` call of `process_mentions`, replacing the
token of a resolved id `w`, preserves any occurrence of the token of a
different id `u`. -/
theorem py_replace_contains (u w name t : String)
    (hu : ∀ c ∈ u.data, isIdChar c = true) (hw : ∀ c ∈ w.data, isIdChar c = true)
    (hne : u ≠ w)
    (h : contains_chars (tokenOf u) t.data = true) :
    contains_chars (tokenOf u) (py_replace t ("<@" ++ w ++ ">") ("@" ++ name)).data = true := by
  have hdata : ("<@" ++ w ++ ">").data = '<' :: ('@' :: (w.data ++ ['>'])) := by
    simp [String.data_append]
  unfold py_replace
  rw [hdata]
  exact replace_go_contains u w ("@" ++ name).data hu hw hne t.data.length t.data le_rfl h

/-- Helper: an occurrence of the token of an unresolvable id survives the
whole resolution loop, including messages in which other tokens resolve and
are replaced. -/
theorem process_mentions_preserves_token (client : UsersInfo) (text uid : String)
    (hid : ∀ c ∈ uid.data, isIdChar c = true)
    (hfail : ∀ info, client uid = some info → info.real_name = none)
    (h : contains_chars (tokenOf uid) text.data = true) :
    contains_chars (tokenOf uid) (process_mentions client text).data = true := by
  have key : ∀ (ms : List String), (∀ v ∈ ms, ∀ c ∈ v.data, isIdChar c = true) →
      ∀ t : String, contains_chars (tokenOf uid) t.data = true →
      contains_chars (tokenOf uid) (ms.foldl (mention_step client) t).data = true := by
    intro ms
    induction ms with
    | nil =>
      intro _ t ht
      simpa using ht
    | cons v vs ih =>
      intro hall t ht
      simp only [List.foldl_cons]
      refine ih (fun x hx => hall x (by simp [hx])) _ ?_
      unfold mention_step
      cases hcv : client v with
      | none => simpa using ht
      | some info =>
        cases hrn : info.real_name with
        | none =>
          simp only [hrn]
          exact ht
        | some name =>
          simp only [hrn]
          by_cases hvu : v = uid
          · exfalso
            rw [hvu] at hcv
            have hnone := hfail info hcv
            rw [hnone] at hrn
            cases hrn
          · exact py_replace_contains uid v name t hid (hall v (by simp))
              (fun he => hvu he.symm) ht
  exact key _ (fun v hv => findMentionsGo_idchars _ _ v hv) text h

/-- Helper: when every `<` of the resolved text opens a well-formed token,
the stripping and trimming steps leave a transcript text containing no
mention token at all. -/
theorem no_token_after_strip (client : UsersInfo) (text uid : String)
    (hclean : clean_mentions (process_mentions client text).data = true) :
    contains_chars (tokenOf uid) (transform_text client text).data = false := by
  cases hc : contains_chars (tokenOf uid) (transform_text client text).data with
  | false => rfl
  | true =>
    exfalso
    have hmem : '<' ∈ (transform_text client text).data :=
      contains_head_mem '<' ('@' :: (uid.data ++ ['>'])) _ hc
    have hmem2 : '<' ∈ (remove_mention_tokens (process_mentions client text)).data :=
      py_strip_chars_mem py_is_space _ '<' hmem
    exact remove_go_no_lt _ _ _ le_rfl le_rfl hclean hmem2

/-- C3 (amended): for any id that the lookup capability fails to resolve
(exception, or missing `real_name`), the resolution loop's per-token step is
the identity, and — even in messages that also contain resolvable tokens,
whose occurrences are replaced — an occurrence of the unresolved token
`<@id>` is still present when `process_mentions` finishes; only a warning is
recorded, never a failure.  It is the subsequent raw-token stripping
`re.sub(r'<@[A-Z0-9]+>', '', text)` that deletes it: whenever every `<` of
the resolved text opens a well-formed mention token, the transcript-line
text contains no mention token at all, so the unresolved token does not
survive into the transcript line. -/
theorem C3_unresolved_token_fate (client : UsersInfo) (text uid : String)
    (hid : ∀ c ∈ uid.data, isIdChar c = true)
    (hfail : ∀ info, client uid = some info → info.real_name = none) :
    (∀ t : String, mention_step client t uid = t) ∧
    (contains_chars (tokenOf uid) text.data = true →
      contains_chars (tokenOf uid) (process_mentions client text).data = true) ∧
    (clean_mentions (process_mentions client text).data = true →
      contains_chars (tokenOf uid) (transform_text client text).data = false) := by
  refine ⟨?_, ?_, ?_⟩
  · intro t
    unfold mention_step
    cases hcl : client uid with
    | none => rfl
    | some info =>
      have hnone := hfail info hcl
      simp [hnone]
  · exact process_mentions_preserves_token client text uid hid hfail
  · exact no_token_after_strip client text uid

/-- C3 witness: at the counterexample's input, the unresolved token is still
present after resolution and absent from the transformed transcript text. -/
theorem C3_witness :
    contains_chars (tokenOf "U999") (process_mentions client_u1 "hi <@U999>").data = true ∧
    contains_chars (tokenOf "U999") (transform_text client_u1 "hi <@U999>").data = false :=
  ⟨(C3_unresolved_token_fate client_u1 "hi <@U999>" "U999" (by decide)
      (fun info h => nomatch h)).2.1 (by decide),
   (C3_unresolved_token_fate client_u1 "hi <@U999>" "U999" (by decide)
      (fun info h => nomatch h)).2.2 (by decide)⟩

/-! ## Theorems for the lookup-caching claim (C4) -/

/-- C4 counterexample: one request over a single authored message by `"U1"`
(resolvable, no inline mentions) invokes `users_info` for `"U1"` twice —
once in `format_messages_for_llm` and once more in
`extract_participants_with_email`, because each helper builds its own cache
and neither is shared across the request. -/
theorem C4_counterexample :
    (request_lookups client_u1_email msgs_hello).count "U1" = 2 ∧
    ¬((request_lookups client_u1_email msgs_hello).count "U1" ≤ 1) :=
  ⟨by decide, by decide⟩

/-- Helper: looking up in a cache extended on the right. -/
theorem cacheFind_append (c : List (String × UserInfo)) (v : String) (i : UserInfo)
    (uid : String) :
    cacheFind (c ++ [(v, i)]) uid =
      match cacheFind c uid with
      | some x => some x
      | none => if v = uid then some i else none := by
  induction c with
  | nil => simp [cacheFind]
  | cons kv rest ih =>
    obtain ⟨k, w⟩ := kv
    by_cases hk : k = uid <;> simp [cacheFind, hk, ih]

/-- Helper: within one `format_messages_for_llm` call, the author-lookup log
holds a resolvable id exactly once after it has been cached and not at all
before. -/
theorem format_author_count (client : UsersInfo) (uid : String)
    (hcl : client uid ≠ none) (msgs : List RawMessage) :
    ∀ st : FormatState,
      st.author_lookups.count uid =
        (if (cacheFind st.user_cache uid).isSome then 1 else 0) →
      (msgs.foldl (format_step client) st).author_lookups.count uid =
        (if (cacheFind (msgs.foldl (format_step client) st).user_cache uid).isSome
          then 1 else 0) := by
  induction msgs with
  | nil =>
    intro st h
    simpa using h
  | cons m ms ih =>
    intro st h
    simp only [List.foldl_cons]
    apply ih
    cases hu : truthy m.user with
    | false =>
      rw [show format_step client st m = st by simp [format_step, hu]]
      exact h
    | true =>
      cases hb : truthy m.bot_id with
      | true =>
        rw [show format_step client st m = st by simp [format_step, hb]]
        exact h
      | false =>
        unfold format_step
        rw [if_neg (by simp [hu, hb])]
        cases hcf : cacheFind st.user_cache (m.user.getD "") with
        | some info =>
          dsimp only
          rw [(format_emit_spec client st _ m.text).2.2,
            (format_emit_spec client st _ m.text).2.1]
          exact h
        | none =>
          dsimp only
          cases hcl2 : client (m.user.getD "") with
          | some info =>
            dsimp only
            rw [(format_emit_spec client _ _ m.text).2.2,
              (format_emit_spec client _ _ m.text).2.1]
            dsimp only
            rw [cacheFind_append]
            by_cases he : m.user.getD "" = uid
            · rw [he] at hcf ⊢
              rw [hcf] at h ⊢
              simp [List.count_append, h]
            · cases hcc : cacheFind st.user_cache uid with
              | some x =>
                rw [hcc] at h
                simp only [Option.isSome_some, if_true] at h
                dsimp only
                rw [List.count_append]
                simp [List.count_cons, Ne.symm he, h]
              | none =>
                rw [hcc] at h
                simp at h
                dsimp only
                rw [if_neg he]
                rw [List.count_append]
                simp [List.count_cons, Ne.symm he, h]
          | none =>
            dsimp only
            rw [(format_emit_spec client _ _ m.text).2.2,
              (format_emit_spec client _ _ m.text).2.1]
            have hne : m.user.getD "" ≠ uid := by
              intro he
              rw [he] at hcl2
              exact hcl hcl2
            dsimp only
            rw [List.count_append]
            simp [List.count_cons, Ne.symm hne, h]

/-- Helper: a lookup log stays within one occurrence of `uid` when an id is
appended that is either different from `uid` or not yet logged. -/
theorem extract_lookup_count (client : UsersInfo) (uid : String) (msgs : List RawMessage) :
    ∀ st : ExtractState,
      (uid ∉ st.processed_users → st.lookups.count uid = 0) →
      st.lookups.count uid ≤ 1 →
      (msgs.foldl (extract_step client) st).lookups.count uid ≤ 1 := by
  induction msgs with
  | nil =>
    intro st _ h1
    simpa using h1
  | cons m ms ih =>
    intro st h0 h1
    simp only [List.foldl_cons]
    cases hu : truthy m.user with
    | false =>
      rw [show extract_step client st m = st by simp [extract_step, hu]]
      exact ih st h0 h1
    | true =>
      cases hb : truthy m.bot_id with
      | true =>
        rw [show extract_step client st m = st by simp [extract_step, hb]]
        exact ih st h0 h1
      | false =>
        by_cases hp : m.user.getD "" ∈ st.processed_users
        · rw [show extract_step client st m = st by
            unfold extract_step
            rw [if_neg (by simp [hu, hb]), if_pos hp]]
          exact ih st h0 h1
        · unfold extract_step
          rw [if_neg (by simp [hu, hb]), if_neg hp]
          cases hcf : cacheFind st.user_cache (m.user.getD "") with
          | some info =>
            dsimp only
            refine ih _ ?_ ?_
            · intro hnm
              dsimp only at hnm
              exact h0 (fun hmem => hnm (List.mem_append_left _ hmem))
            · simpa using h1
          | none =>
            dsimp only
            cases hcl2 : client (m.user.getD "") with
            | some info =>
              dsimp only
              refine ih _ ?_ ?_
              · intro hnm
                dsimp only at hnm ⊢
                have hne : m.user.getD "" ≠ uid := by
                  intro he
                  exact hnm (he ▸ List.mem_append_right _ (by simp))
                rw [List.count_append]
                simp [List.count_cons, Ne.symm hne,
                  h0 (fun hmem => hnm (List.mem_append_left _ hmem))]
              · dsimp only
                rw [List.count_append]
                by_cases hvu : m.user.getD "" = uid
                · have h00 := h0 (hvu ▸ hp)
                  simp [List.count_cons, hvu, h00]
                · simp [List.count_cons, Ne.symm hvu]
                  omega
            | none =>
              dsimp only
              refine ih _ ?_ ?_
              · intro hnm
                dsimp only at hnm ⊢
                have hne : m.user.getD "" ≠ uid := by
                  intro he
                  exact hnm (he ▸ List.mem_append_right _ (by simp))
                rw [List.count_append]
                simp [List.count_cons, Ne.symm hne,
                  h0 (fun hmem => hnm (List.mem_append_left _ hmem))]
              · dsimp only
                rw [List.count_append]
                by_cases hvu : m.user.getD "" = uid
                · have h00 := h0 (hvu ▸ hp)
                  simp [List.count_cons, hvu, h00]
                · simp [List.count_cons, Ne.symm hvu]
                  omega

/-- C4 (amended): each helper caches within its own call — a resolvable id
triggers at most one author lookup inside `format_messages_for_llm`, and any
id triggers at most one lookup inside `extract_participants_with_email` —
but the caches are per-helper-call, not per-request, and `process_mentions`
caches nothing, so one request may look the same id up more than once. -/
theorem C4_per_helper_caching_amended (client : UsersInfo) (messages : List RawMessage)
    (uid : String) (hcl : client uid ≠ none) :
    (messages.foldl (format_step client) initFormat).author_lookups.count uid ≤ 1 ∧
    (messages.foldl (extract_step client) initExtract).lookups.count uid ≤ 1 := by
  constructor
  · have h := format_author_count client uid hcl messages initFormat
      (by simp [initFormat, cacheFind])
    rw [h]
    split <;> omega
  · exact extract_lookup_count client uid messages initExtract
      (by intro _; simp [initExtract]) (by simp [initExtract])

/-- C4 witness: the per-helper bounds applied at the counterexample's input. -/
theorem C4_witness :
    client_u1_email "U1" ≠ none ∧
    ((msgs_hello.foldl (format_step client_u1_email) initFormat).author_lookups.count "U1" ≤ 1 ∧
     (msgs_hello.foldl (extract_step client_u1_email) initExtract).lookups.count "U1" ≤ 1) :=
  ⟨by decide, C4_per_helper_caching_amended client_u1_email msgs_hello "U1" (by decide)⟩

/-! ## Theorem for the persistence-failure claim (C9) -/

/-- C9: whenever the Notion create-page call ends in a non-200 status or a
transport error, `notion_url` stays unset, so the edited status message is
exactly the summary followed by the provider footer — the summary is still
delivered and no store-confirmation suffix is appended; the failure is
absorbed inside the save block and never aborts the event. -/
theorem C9_persistence_failure_recovered (summary provider : String)
    (save cfg : Bool) (kw : Except Unit String) :
    (∀ status url, status ≠ 200 →
      response_text_of summary provider
          (notion_url_of save cfg kw (PostOutcome.response status url)) =
        summary ++ "\n\n_Generated by: " ++ provider ++ "_") ∧
    (response_text_of summary provider
        (notion_url_of save cfg kw PostOutcome.transportError) =
      summary ++ "\n\n_Generated by: " ++ provider ++ "_") := by
  constructor
  · intro status url hst
    have hn : notion_url_of save cfg kw (PostOutcome.response status url) = none := by
      unfold notion_url_of save_summary_to_notion
      cases save <;> cases cfg <;> cases kw <;> simp [hst]
    rw [hn]
    rfl
  · have hn : notion_url_of save cfg kw PostOutcome.transportError = none := by
      unfold notion_url_of save_summary_to_notion
      cases save <;> cases cfg <;> cases kw <;> simp
    rw [hn]
    rfl

/-- C9 witness: a concrete 400 response with the save flag, configuration,
and keywords all present still yields the bare summary plus footer. -/
theorem C9_witness :
    response_text_of "S" "claude"
        (notion_url_of true true (Except.ok "kw") (PostOutcome.response 400 (some "u"))) =
      "S" ++ "\n\n_Generated by: " ++ "claude" ++ "_" :=
  (C9_persistence_failure_recovered "S" "claude" true true (Except.ok "kw")).1
    400 (some "u") (by decide)

end SlackSummarizer
